import Mathlib

/-!
Verification development for the godump runtime value inspector
(`godump.go`).  The recursive rendering engine `printValue`, its driver
`writeDump` and the entry points `Dump`, `DumpStr`, `DumpHTML`, `Fdump`
are shallowly embedded over an explicit value-graph model:

* Go values are modelled by the inductive `Val`; pointer targets live in
  an explicit heap (`Heap`, a finite association list from addresses to
  values), so self-referential value graphs are expressible.
* The process-global mutable state (`nextRefID`, `referenceMap`, the
  colorize backend and the color-enabled flag) is the record `St`,
  threaded through every call.  The counter of `String()` invocations
  (`stringerCalls`) records each call of a value's own `String` method,
  so "the method is never invoked" is provable as `stringerCalls`
  staying unchanged.
* Output is modelled as a list of tokens (`Tok`), one token per
  `fmt.Fprint` family call of the source; colorization wraps the text of
  a token and does not change which tokens are emitted, so it is
  abstracted away (except for the backend choice recorded in `St`,
  which `DumpHTML` swaps and restores).
* Addressability (`reflect.Value.CanAddr`) is a property of how a value
  was reached, not of the value itself; it is threaded through the
  recursion as the boolean argument `ca` following Go's rules:
  dereferencing a pointer yields an addressable value, unwrapping an
  interface or indexing a map yields a non-addressable one, a field of a
  struct inherits the struct's addressability, a slice element is
  addressable, an array element inherits the array's addressability.
* The recursion is made total with a fuel parameter: `none` means the
  computation did not finish within the given fuel.  A run of the Go
  code terminates iff some fuel suffices; a run that diverges yields
  `none` for every fuel.
* Floating point / complex formatting (`%f`, `%v`) is outside the
  embedding; those leaves carry their already-formatted text.
-/

namespace Godump

/-- Heap addresses (Go `uintptr` pointer identities). -/
abbrev Addr := Nat

/-- One node of the inspected value graph.  `vstringer` marks a value
whose runtime type implements `fmt.Stringer` (`str` is what `String()`
returns, `inner` the underlying shape used by the nil-receiver guard).
A pointer (`vptr`) holds the address of its target in the heap, `none`
for a nil pointer.  `vslice` covers both slices and arrays
(`isSlice`), with `elemByte` true when the element kind is `uint8`.
`vfloat`/`vcomplex` carry their formatted text (floating point
formatting is outside the embedding). -/
inductive Val where
  | vinvalid : Val
  | vbool (b : Bool) : Val
  | vint (n : Int) : Val
  | vuint (n : Nat) : Val
  | vfloat (rep : String) : Val
  | vcomplex (rep : String) : Val
  | vstr (s : String) : Val
  | vchan (ty : String) (isNilC : Bool) (addr : Addr) : Val
  | vptr (ty : String) (target : Option Addr) : Val
  | viface (ty : String) (inner : Option Val) : Val
  | vstruct (ty : String) (fields : List (String × Bool × Val)) : Val
  | vmap (ty : String) (isNilM : Bool) (entries : List (String × Val)) : Val
  | vslice (ty : String) (isSlice : Bool) (isNilS : Bool) (elemByte : Bool)
      (elems : List Val) : Val
  | vfunc (ty : String) (isNilF : Bool) : Val
  | vuptr (addr : Addr) : Val
  | vstringer (str : String) (ty : String) (inner : Val) : Val
deriving Repr

/-- The heap: pointer identity to pointed-to value. -/
abbrev Heap := List (Addr × Val)

/-- Dereference an address (Go `v.Elem()` on a pointer); a dangling
address yields the invalid value (well-formed inputs never do this). -/
def derefAddr : Heap → Addr → Val
  | [], _ => Val.vinvalid
  | (a, w) :: h, x => if x = a then w else derefAddr h x

/-- Dumper configuration (`godump.Dumper`): `maxDepth`, `maxItems`,
`maxStringLen`.  The `With*` options reject negative values, so every
reachable configuration is non-negative and `Nat` is faithful. -/
structure Cfg where
  maxDepth : Nat
  maxItems : Nat
  maxStringLen : Nat
deriving DecidableEq, Repr

/-- `NewDumper()` defaults: `defaultMaxDepth = 15`, `defaultMaxItems =
100`, `defaultMaxStringLen = 100000`. -/
def NewDumper : Cfg := ⟨15, 100, 100000⟩

/-- `WithMaxDepth`: sets `maxDepth` when the argument is non-negative,
otherwise leaves the configuration unchanged. -/
def WithMaxDepth (n : Int) (d : Cfg) : Cfg :=
  if 0 ≤ n then { d with maxDepth := n.toNat } else d

/-- `WithMaxItems`: sets `maxItems` when the argument is non-negative,
otherwise leaves the configuration unchanged. -/
def WithMaxItems (n : Int) (d : Cfg) : Cfg :=
  if 0 ≤ n then { d with maxItems := n.toNat } else d

/-- `WithMaxStringLen`: sets `maxStringLen` when the argument is
non-negative, otherwise leaves the configuration unchanged. -/
def WithMaxStringLen (n : Int) (d : Cfg) : Cfg :=
  if 0 ≤ n then { d with maxStringLen := n.toNat } else d

/-- The colorize backend currently installed in the global `colorize`
variable: ANSI (`ansiColorize`, the default) or HTML (`htmlColorize`). -/
inductive Backend where
  | ansi : Backend
  | html : Backend
deriving DecidableEq, Repr

/-- The process-global mutable state of the package: `nextRefID`,
`referenceMap` (kept as an association list in insertion order, which
is first-visit order), the active colorize backend, the `enableColor`
flag, and an instrumentation counter of `String()` invocations. -/
structure St where
  nextRefID : Nat
  refMap : List (Addr × Nat)
  backend : Backend
  enableColor : Bool
  stringerCalls : Nat
deriving DecidableEq, Repr

/-- The state at process start: `nextRefID = 1`, empty reference map,
ANSI backend, color enabled (the `detectColor` default). -/
def st0 : St := ⟨1, [], Backend.ansi, true, 0⟩

/-- Record one invocation of a value's own `String()` method. -/
def bumpStringer (st : St) : St :=
  { st with stringerCalls := st.stringerCalls + 1 }

/-- Lookup in the reference map (`referenceMap[ptr]`). -/
def lookupRef : List (Addr × Nat) → Addr → Option Nat
  | [], _ => none
  | (a, id) :: m, x => if x = a then some id else lookupRef m x

/-- One output token per `fmt.Fprint` family call of the source.
`raw` carries verbatim text written straight to the builder (the HTML
document wrapper). -/
inductive Tok where
  | maxDepthMarker : Tok
  | invalidTok : Tok
  | stringerTok (s : String) (ty : String) : Tok
  | stringerNil (ty : String) : Tok
  | chanNil (ty : String) : Tok
  | chanAddr (ty : String) (addr : Addr) : Tok
  | nilValTok (ty : String) : Tok
  | backref (id : Nat) : Tok
  | structHeader (ty : String) : Tok
  | fieldLabel (sym : String) (name : String) (ind : Nat) : Tok
  | closeBrace (ind : Nat) : Tok
  | closeBracket (ind : Nat) : Tok
  | mapOpen : Tok
  | mapKey (k : String) (ind : Nat) : Tok
  | truncated (ind : Nat) : Tok
  | seqOpen : Tok
  | seqIdx (i : Nat) (ind : Nat) : Tok
  | strLit (s : String) : Tok
  | boolLit (b : Bool) : Tok
  | intLit (n : Int) : Tok
  | uintLit (n : Nat) : Tok
  | floatLit (rep : String) : Tok
  | complexLit (rep : String) : Tok
  | funcLitTok : Tok
  | uptrTok (addr : Addr) : Tok
  | hexDumpTok (bytes : List Nat) (ind : Nat) : Tok
  | newline : Tok
  | raw (s : String) : Tok
deriving DecidableEq, Repr

/-- Text of the back-reference marker, from the source format string
`"↩︎ &%d"` (`printValue`, reference-check branch). -/
def backrefMarker (id : Nat) : String := "↩︎ &" ++ toString id

/-- The string-escaping table of `replacer`
(`strings.NewReplacer` in the source): newline, tab, carriage return,
vertical tab (0x0b), form feed (0x0c) and ESC (0x1b), each to its
literal escape sequence. -/
def replacerPairs : List (Char × String) :=
  [('\n', "\\n"), ('\t', "\\t"), ('\r', "\\r"),
   (Char.ofNat 11, "\\v"), (Char.ofNat 12, "\\f"),
   (Char.ofNat 27, "\\x1b")]

/-- One left-to-right pass of `replacer.Replace`.  All patterns are
single (distinct) characters, so the `strings.Replacer` semantics is a
character-by-character substitution. -/
def replaceChars : List Char → String
  | [] => ""
  | c :: cs =>
      match replacerPairs.find? (fun p => p.1 == c) with
      | some p => p.2 ++ replaceChars cs
      | none => String.singleton c ++ replaceChars cs

/-- `escapeControl`: escape control characters via `replacer`. -/
def escapeControl (s : String) : String := replaceChars s.data

/-- The nil-receiver guard of `asStringer`: after the type assertion,
`reflect.ValueOf(s).Kind() == reflect.Ptr && rv.IsNil()` — true exactly
when the stringer capability is held through a nil pointer receiver. -/
def isNilPtrRecv : Val → Bool
  | Val.vptr _ none => true
  | _ => false

/-- Result of `asStringer`: no stringer, the nil-pointer-receiver
fallback, or the text produced by calling `String()`. -/
inductive StringerRes where
  | noStr : StringerRes
  | nilPtr (ty : String) : StringerRes
  | text (s : String) (ty : String) : StringerRes
deriving DecidableEq, Repr

/-- `asStringer`: if the value's type implements `fmt.Stringer`, render
`<text> #<type-name>` — unless the receiver is a nil pointer, in which
case render `<type>(nil)` without invoking `String()`.  The
`forceExported` re-view taken for non-interfaceable values is
identity-preserving, so it does not change the value in this model.
Calling `String()` is recorded in `stringerCalls`. -/
def asStringer (v : Val) (st : St) : StringerRes × St :=
  match v with
  | Val.vstringer s ty inner =>
      if isNilPtrRecv inner then (StringerRes.nilPtr ty, st)
      else (StringerRes.text s ty, bumpStringer st)
  | _ => (StringerRes.noStr, st)

/-- `isNil`: kind-based nil check (`Ptr`, `Slice`, `Map`, `Interface`,
`Func`, `Chan` use `IsNil`; every other kind is never nil). -/
def isNil : Val → Bool
  | Val.vptr _ none => true
  | Val.vslice _ true true _ _ => true
  | Val.vmap _ true _ => true
  | Val.viface _ none => true
  | Val.vfunc _ true => true
  | Val.vchan _ true _ => true
  | _ => false

/-- Go type string of a value (`v.Type().String()`), used by the nil
rendering. -/
def typeNameOf : Val → String
  | Val.vptr ty _ => ty
  | Val.viface ty _ => ty
  | Val.vmap ty _ _ => ty
  | Val.vslice ty _ _ _ _ => ty
  | Val.vfunc ty _ => ty
  | Val.vchan ty _ _ => ty
  | Val.vstruct ty _ => ty
  | Val.vstringer _ ty _ => ty
  | _ => ""

/-- `forceExported`: the identity-preserving re-view
(`reflect.NewAt(t, unsafePtr).Elem()`) that lifts the accessibility
restriction for reading; it does not clone or change the value, so at
the level of value content it is the identity. -/
def forceExported (v : Val) : Val := v

/-- Bytes of a byte slice for the hex-dump branch (`v.Convert` to
`[]byte`); element values of a `uint8`-kinded slice are `vuint`. -/
def bytesOf (xs : List Val) : List Nat :=
  xs.map (fun x => match x with | Val.vuint n => n | _ => 0)

/-- `makeAddressable`: at its only call site the argument comes from
`reflect.ValueOf`, which is never addressable, so the value is returned
unchanged and becomes addressable exactly when it is a struct (wrapped
in a fresh pointer and dereferenced). -/
def makeAddressable (v : Val) : Val × Bool :=
  (v, match v with | Val.vstruct _ _ => true | _ => false)

section Engine

variable (H : Heap) (cfg : Cfg)

mutual

/-- `printValue(tw, v, indent, visited)`.  Guard order follows the
source: depth guard, validity guard, stringer override, channel rule,
nil rule, reference check (for addressable pointers), kind dispatch.
The validity guard precedes the stringer override in the source; since
`asStringer` yields the empty result on an invalid value and leaves the
state unchanged, placing the `vinvalid` case in the dispatch below the
stringer stage renders the same tokens for every input.  `ca` is
`v.CanAddr()`, `ind` the `indent` parameter, and fuel makes the
recursion total (`none` = did not finish within the fuel). -/
def printValue : Nat → Val → Bool → Nat → St → Option (List Tok × St)
  | 0, _, _, _, _ => none
  | fuel+1, v, ca, ind, st =>
    if cfg.maxDepth < ind then some ([Tok.maxDepthMarker], st) else
    match asStringer v st with
    | (StringerRes.nilPtr ty, st1) => some ([Tok.stringerNil ty], st1)
    | (StringerRes.text s ty, st1) => some ([Tok.stringerTok s ty], st1)
    | (StringerRes.noStr, _) =>
      match v with
      | Val.vinvalid => some ([Tok.invalidTok], st)
      | Val.vchan ty true _ => some ([Tok.chanNil ty], st)
      | Val.vchan ty false a => some ([Tok.chanAddr ty a], st)
      | w =>
        if isNil w then some ([Tok.nilValTok (typeNameOf w)], st) else
        match w with
        | Val.vptr _ (some a) =>
            if ca then
              match lookupRef st.refMap a with
              | some id => some ([Tok.backref id], st)
              | none =>
                  printValue fuel (derefAddr H a) true ind
                    { st with refMap := st.refMap ++ [(a, st.nextRefID)],
                              nextRefID := st.nextRefID + 1 }
            else printValue fuel (derefAddr H a) true ind st
        | Val.viface _ (some inner) => printValue fuel inner false ind st
        | Val.vstruct ty fs =>
            match printStructFields fuel fs ca ind st with
            | none => none
            | some (ts, st') =>
                some (Tok.structHeader ty :: Tok.newline :: ts ++
                        [Tok.closeBrace ind], st')
        | Val.vmap _ _ es =>
            match printMapEntries fuel es 0 ind st with
            | none => none
            | some (ts, st') =>
                some (Tok.mapOpen :: Tok.newline :: ts ++
                        [Tok.closeBrace ind], st')
        | Val.vslice _ sl _ eb xs =>
            if eb then some ([Tok.hexDumpTok (bytesOf xs) (ind+1)], st)
            else
              match printSliceElems fuel xs 0 ind (sl || ca) st with
              | none => none
              | some (ts, st') =>
                  some (Tok.seqOpen :: Tok.newline :: ts ++
                          [Tok.closeBracket ind], st')
        | Val.vstr s =>
            let e := escapeControl s
            let r := if cfg.maxStringLen < e.length
                     then String.mk (e.data.take cfg.maxStringLen) ++ "…"
                     else e
            some ([Tok.strLit r], st)
        | Val.vbool b => some ([Tok.boolLit b], st)
        | Val.vint n => some ([Tok.intLit n], st)
        | Val.vuint n => some ([Tok.uintLit n], st)
        | Val.vfloat r => some ([Tok.floatLit r], st)
        | Val.vcomplex r => some ([Tok.complexLit r], st)
        | Val.vfunc _ _ => some ([Tok.funcLitTok], st)
        | Val.vuptr a => some ([Tok.uptrTok a], st)
        | _ => some ([], st)

/-- The struct-field loop of `printValue`: for every declared field, in
order, emit `<symbol><name>` (`+` for an exported field, `-` for an
unexported one, read through `forceExported`), then the field value —
through `asStringer` when the field's type has a `String()` form,
through the recursive `printValue` at `indent+1` otherwise — then a
newline.  The field inherits the struct's addressability. -/
def printStructFields : Nat → List (String × Bool × Val) → Bool → Nat → St →
    Option (List Tok × St)
  | 0, _, _, _, _ => none
  | _+1, [], _, _, st => some ([], st)
  | fuel+1, (name, ex, fv) :: fs, ca, ind, st =>
      let sym := if ex then "+" else "-"
      let fv' := if ex then fv else forceExported fv
      match asStringer fv' st with
      | (StringerRes.nilPtr ty, st1) =>
          match printStructFields fuel fs ca ind st1 with
          | none => none
          | some (rest, st2) =>
              some (Tok.fieldLabel sym name (ind+1) :: Tok.stringerNil ty ::
                      Tok.newline :: rest, st2)
      | (StringerRes.text s ty, st1) =>
          match printStructFields fuel fs ca ind st1 with
          | none => none
          | some (rest, st2) =>
              some (Tok.fieldLabel sym name (ind+1) :: Tok.stringerTok s ty ::
                      Tok.newline :: rest, st2)
      | (StringerRes.noStr, _) =>
          match printValue fuel fv' ca (ind+1) st with
          | none => none
          | some (ts, st1) =>
              match printStructFields fuel fs ca ind st1 with
              | none => none
              | some (rest, st2) =>
                  some (Tok.fieldLabel sym name (ind+1) :: ts ++
                          Tok.newline :: rest, st2)

/-- The map-entry loop of `printValue`: entries in iteration order, the
running index `i` against `maxItems`; at `i ≥ maxItems` emit one
truncation marker and stop.  Map values are not addressable. -/
def printMapEntries : Nat → List (String × Val) → Nat → Nat → St →
    Option (List Tok × St)
  | 0, _, _, _, _ => none
  | _+1, [], _, _, st => some ([], st)
  | fuel+1, (k, v) :: es, i, ind, st =>
      if cfg.maxItems ≤ i then some ([Tok.truncated (ind+1)], st)
      else
        match printValue fuel v false (ind+1) st with
        | none => none
        | some (ts, st1) =>
            match printMapEntries fuel es (i+1) ind st1 with
            | none => none
            | some (rest, st2) =>
                some (Tok.mapKey k (ind+1) :: ts ++ Tok.newline :: rest, st2)

/-- The slice/array element loop of `printValue` (non-byte element
kind): elements in order with their indices, the index checked against
`maxItems`; at `i ≥ maxItems` emit one truncation marker (the slice
marker text carries its own newline) and stop.  `eca` is the element
addressability: slice elements are addressable, array elements inherit
the array's addressability. -/
def printSliceElems : Nat → List Val → Nat → Nat → Bool → St →
    Option (List Tok × St)
  | 0, _, _, _, _, _ => none
  | _+1, [], _, _, _, st => some ([], st)
  | fuel+1, x :: xs, i, ind, eca, st =>
      if cfg.maxItems ≤ i then some ([Tok.truncated (ind+1), Tok.newline], st)
      else
        match printValue fuel x eca (ind+1) st with
        | none => none
        | some (ts, st1) =>
            match printSliceElems fuel xs (i+1) ind eca st1 with
            | none => none
            | some (rest, st2) =>
                some (Tok.seqIdx i (ind+1) :: ts ++ Tok.newline :: rest, st2)

end

/-- The per-argument loop of `writeDump`: each top-level value is made
addressable (`makeAddressable`), printed at depth 0, and followed by a
newline. -/
def writeVals : Nat → List Val → St → Option (List Tok × St)
  | 0, _, _ => none
  | _+1, [], st => some ([], st)
  | fuel+1, v :: vs, st =>
      match printValue H cfg fuel (makeAddressable v).1 (makeAddressable v).2
          0 st with
      | none => none
      | some (ts, st1) =>
          match writeVals fuel vs st1 with
          | none => none
          | some (rest, st2) => some (ts ++ Tok.newline :: rest, st2)

/-- `writeDump`: resets `referenceMap` to the empty map — and only the
map; `nextRefID` keeps its process-global value — then renders every
argument in turn. -/
def writeDump (fuel : Nat) (vs : List Val) (st : St) :
    Option (List Tok × St) :=
  writeVals H cfg fuel vs { st with refMap := [] }

/-- `Dumper.Dump` / package-level `Dump`: header (caller-location
dependent, out of scope — it touches no reference state), then
`writeDump`, then flush to the writer. -/
def Dump (fuel : Nat) (vs : List Val) (st : St) : Option (List Tok × St) :=
  writeDump H cfg fuel vs st

/-- `Dumper.DumpStr` / package-level `DumpStr`: same rendering into a
string builder. -/
def DumpStr (fuel : Nat) (vs : List Val) (st : St) : Option (List Tok × St) :=
  writeDump H cfg fuel vs st

/-- `Fdump`: `NewDumper(WithWriter(w)).Dump(vs...)` — same rendering to
the given writer with the default limits. -/
def Fdump (fuel : Nat) (vs : List Val) (st : St) : Option (List Tok × St) :=
  writeDump H cfg fuel vs st

/-- The opening document fragment written by `DumpHTML`. -/
def htmlOpen : String :=
  "<body style=\x27background-color:black;\x27><pre style=\"background-color:black; color:white; padding:5px; border-radius: 5px\">\n"

/-- The closing document fragment written by `DumpHTML`. -/
def htmlClose : String := "</pre></body>"

/-- `Dumper.DumpHTML`: saves the global `colorize` backend and
`enableColor`, installs the HTML backend with color forced on, renders
between the `<body>`/`<pre>` wrapper, and restores both saved globals
on exit (a deferred restore). -/
def DumpHTML (fuel : Nat) (vs : List Val) (st : St) :
    Option (List Tok × St) :=
  let prevColorize := st.backend
  let prevEnable := st.enableColor
  let st1 := { st with backend := Backend.html, enableColor := true }
  match writeDump H cfg fuel vs st1 with
  | none => none
  | some (ts, st2) =>
      some (Tok.raw htmlOpen :: ts ++ [Tok.raw htmlClose],
            { st2 with backend := prevColorize, enableColor := prevEnable })

end Engine

section SpecAux

variable (H : Heap) (cfg : Cfg)

/-- Comparison definition for the item-truncation property, following
the spec's words: the map-entry loop with no `maxItems` break, so that
the bounded loop can be equated with "the first `maxItems` entries plus
one truncation marker". -/
def printMapEntriesUnbounded : Nat → List (String × Val) → Nat → St →
    Option (List Tok × St)
  | 0, _, _, _ => none
  | _+1, [], _, st => some ([], st)
  | fuel+1, (k, v) :: es, ind, st =>
      match printValue H cfg fuel v false (ind+1) st with
      | none => none
      | some (ts, st1) =>
          match printMapEntriesUnbounded fuel es ind st1 with
          | none => none
          | some (rest, st2) =>
              some (Tok.mapKey k (ind+1) :: ts ++ Tok.newline :: rest, st2)

/-- Comparison definition for the item-truncation property: the
slice/array element loop with no `maxItems` break (the running index
`i` still labels the elements). -/
def printSliceElemsUnbounded : Nat → List Val → Nat → Nat → Bool → St →
    Option (List Tok × St)
  | 0, _, _, _, _, _ => none
  | _+1, [], _, _, _, st => some ([], st)
  | fuel+1, x :: xs, i, ind, eca, st =>
      match printValue H cfg fuel x eca (ind+1) st with
      | none => none
      | some (ts, st1) =>
          match printSliceElemsUnbounded fuel xs (i+1) ind eca st1 with
          | none => none
          | some (rest, st2) =>
              some (Tok.seqIdx i (ind+1) :: ts ++ Tok.newline :: rest, st2)

end SpecAux

/-- A family of pure nested structs: `nestVal n` is a struct chain of
nesting depth `n` ending in an integer leaf (Go:
`type Nest struct { Child ... }` nested `n` deep). -/
def nestVal : Nat → Val
  | 0 => Val.vint 0
  | n+1 => Val.vstruct "godump.Nest" [("Child", true, nestVal n)]

/-- Interleaving of field labels with per-field renderings: field `i`
contributes `<symbol><name>` at `indent+1`, its rendered value, and a
newline.  Used to state that a struct renders every declared field
exactly once, in declaration order, with the right visibility marker. -/
def glueFields : List (String × Bool × Val) → List (List Tok) → Nat → List Tok
  | [], _, _ => []
  | _ :: _, [], _ => []
  | (name, ex, _) :: fs, r :: rs, ind =>
      Tok.fieldLabel (if ex then "+" else "-") name (ind+1) ::
        (r ++ Tok.newline :: glueFields fs rs ind)

/-- The heap of the Go program `var a, b any; a = &b; b = &a`: two
interface cells, each holding a pointer to the other.  Every pointer in
this graph is reached by unwrapping an interface, hence is
non-addressable (`reflect.Value.CanAddr() == false`). -/
def Hcyc : Heap :=
  [(1, Val.viface "any" (some (Val.vptr "*any" (some 2)))),
   (2, Val.viface "any" (some (Val.vptr "*any" (some 1))))]

/-- Reference-tracker invariant relative to the id counter value `k` at
the start of the current top-level call: the assigned ids, read in
first-visit (insertion) order, are exactly `k, k+1, ...`; the
registered addresses are pairwise distinct; and the counter sits past
the last assigned id. -/
def RefInv (k : Nat) (st : St) : Prop :=
  st.refMap.map Prod.snd = List.range' k st.refMap.length
  ∧ (st.refMap.map Prod.fst).Nodup
  ∧ st.nextRefID = k + st.refMap.length

/-! ### Helper lemmas -/

/-- With no fuel the engine reports non-termination. -/
theorem pv_zero (H : Heap) (cfg : Cfg) (v : Val) (ca : Bool) (ind : Nat)
    (st : St) : printValue H cfg 0 v ca ind st = none := by
  simp [printValue]

/-- The depth guard: past `maxDepth` the engine emits the truncation
marker and returns, for every value alike (so nothing of the node is
read) and without touching the state. -/
theorem pv_depth_guard (H : Heap) (cfg : Cfg) (fuel : Nat) (v : Val)
    (ca : Bool) (ind : Nat) (st : St) (h : cfg.maxDepth < ind) :
    printValue H cfg (fuel+1) v ca ind st = some ([Tok.maxDepthMarker], st) := by
  cases v with
  | vchan ty nb a => cases nb <;> simp [printValue, h]
  | vptr ty t => cases t <;> simp [printValue, h]
  | viface ty o => cases o <;> simp [printValue, h]
  | _ => simp [printValue, h]

/-- Unwrapping an interface recurses on the inner value at the same
depth, with addressability dropped. -/
theorem pv_iface_step (H : Heap) (cfg : Cfg) (fuel : Nat) (ty : String)
    (w : Val) (ca : Bool) (ind : Nat) (st : St) (h : ind ≤ cfg.maxDepth) :
    printValue H cfg (fuel+1) (Val.viface ty (some w)) ca ind st =
      printValue H cfg fuel w false ind st := by
  simp [printValue, asStringer, isNil, Nat.not_lt.mpr h]

/-- Unwrapping a non-addressable pointer recurses on the target at the
same depth without consulting or extending the reference map. -/
theorem pv_ptr_step (H : Heap) (cfg : Cfg) (fuel : Nat) (ty : String)
    (a : Addr) (ind : Nat) (st : St) (h : ind ≤ cfg.maxDepth) :
    printValue H cfg (fuel+1) (Val.vptr ty (some a)) false ind st =
      printValue H cfg fuel (derefAddr H a) true ind st := by
  simp [printValue, asStringer, isNil, Nat.not_lt.mpr h]

/-- Unwrapping an addressable pointer whose target is not yet
registered first registers it under the current `nextRefID` and then
recurses on the target at the same depth. -/
theorem pv_ptr_register (H : Heap) (cfg : Cfg) (fuel : Nat) (ty : String)
    (a : Addr) (ind : Nat) (st : St) (h : ind ≤ cfg.maxDepth)
    (hl : lookupRef st.refMap a = none) :
    printValue H cfg (fuel+1) (Val.vptr ty (some a)) true ind st =
      printValue H cfg fuel (derefAddr H a) true ind
        { st with refMap := st.refMap ++ [(a, st.nextRefID)],
                  nextRefID := st.nextRefID + 1 } := by
  simp [printValue, asStringer, isNil, Nat.not_lt.mpr h, hl]

/-- Revisiting an addressable pointer whose target is already
registered emits the back-reference marker with the registered id and
descends no further. -/
theorem pv_ptr_backref (H : Heap) (cfg : Cfg) (fuel : Nat) (ty : String)
    (a : Addr) (id : Nat) (ind : Nat) (st : St) (h : ind ≤ cfg.maxDepth)
    (hl : lookupRef st.refMap a = some id) :
    printValue H cfg (fuel+1) (Val.vptr ty (some a)) true ind st =
      some ([Tok.backref id], st) := by
  simp [printValue, asStringer, isNil, Nat.not_lt.mpr h, hl]

/-- A nested-struct chain value is never a stringer. -/
theorem nestVal_asStringer (n : Nat) (st : St) :
    asStringer (nestVal n) st = (StringerRes.noStr, st) := by
  cases n <;> simp [nestVal, asStringer]

/-- One unwinding of the interface cycle: the top pointer (obtained
from `reflect.ValueOf`, hence non-addressable) dereferences to the
first interface cell without registering anything. -/
theorem cycStep1 (m : Nat) (st : St) :
    printValue Hcyc NewDumper (m+1) (Val.vptr "*any" (some 1)) false 0 st =
      printValue Hcyc NewDumper m
        (Val.viface "any" (some (Val.vptr "*any" (some 2)))) true 0 st := by
  simp [printValue, Hcyc, derefAddr, asStringer, isNil, NewDumper]

/-- Second unwinding: the interface unwraps to the pointer to the other
cell; the pointer obtained from an interface `Elem()` is
non-addressable. -/
theorem cycStep2 (m : Nat) (st : St) :
    printValue Hcyc NewDumper (m+1)
        (Val.viface "any" (some (Val.vptr "*any" (some 2)))) true 0 st =
      printValue Hcyc NewDumper m (Val.vptr "*any" (some 2)) false 0 st := by
  simp [printValue, Hcyc, derefAddr, asStringer, isNil, NewDumper]

/-- Third unwinding: symmetric to the first, into the second cell. -/
theorem cycStep3 (m : Nat) (st : St) :
    printValue Hcyc NewDumper (m+1) (Val.vptr "*any" (some 2)) false 0 st =
      printValue Hcyc NewDumper m
        (Val.viface "any" (some (Val.vptr "*any" (some 1)))) true 0 st := by
  simp [printValue, Hcyc, derefAddr, asStringer, isNil, NewDumper]

/-- Fourth unwinding: back to the starting pointer with the same state
and the same depth — the loop is closed. -/
theorem cycStep4 (m : Nat) (st : St) :
    printValue Hcyc NewDumper (m+1)
        (Val.viface "any" (some (Val.vptr "*any" (some 1)))) true 0 st =
      printValue Hcyc NewDumper m (Val.vptr "*any" (some 1)) false 0 st := by
  simp [printValue, Hcyc, derefAddr, asStringer, isNil, NewDumper]

/-! ### Claim theorems -/

/-- C2: refuted — the claim says `printValue` terminates for every
input including self-referential ones, but on the value graph of
`var a, b any; a = &b; b = &a` (heap `Hcyc`), dumped as `Dump(&a)`,
`printValue` diverges: the only pointers in the cycle are reached by
unwrapping an interface, so `CanAddr()` is false for them, the
reference check is skipped, nothing is ever registered, and pointer and
interface unwrapping keep the depth unchanged, so neither the reference
table nor the depth guard ever stops the recursion.  In the fuel
model: the call returns `none` (does not finish) for every fuel,
from every state. -/
theorem C2_interface_cycle_diverges :
    ∀ (fuel : Nat) (st : St),
      printValue Hcyc NewDumper fuel (Val.vptr "*any" (some 1)) false 0 st =
        none := by
  intro fuel
  induction fuel using Nat.strong_induction_on with
  | _ fuel ih =>
    intro st
    match fuel with
    | 0 => exact pv_zero _ _ _ _ _ _
    | 1 => rw [cycStep1]; exact pv_zero _ _ _ _ _ _
    | 2 => rw [cycStep1, cycStep2]; exact pv_zero _ _ _ _ _ _
    | 3 => rw [cycStep1, cycStep2, cycStep3]; exact pv_zero _ _ _ _ _ _
    | (n+4) =>
      rw [show n+4 = (((n+1)+1)+1)+1 by omega,
          cycStep1, cycStep2, cycStep3, cycStep4]
      exact ih n (by omega) st

/-- C3 counterexample: a channel whose type has its own `String()`
method is rendered by the stringer rule, not by the channel rule — the
stringer check precedes the `Chan` case in `printValue` — and its
`String()` method is invoked (the call counter increases), refuting
"a channel value is always rendered by the channel rule, never by its
own String() method". -/
theorem C3_counterexample :
    printValue [] NewDumper 1
        (Val.vstringer "tick" "godump.customChan"
          (Val.vchan "godump.customChan" false 77)) false 0 st0
      = some ([Tok.stringerTok "tick" "godump.customChan"], bumpStringer st0)
    ∧ (bumpStringer st0).stringerCalls = st0.stringerCalls + 1
    ∧ [Tok.stringerTok "tick" "godump.customChan"] ≠
        [Tok.chanAddr "godump.customChan" 77] := by
  refine ⟨?_, rfl, by decide⟩
  simp [printValue, asStringer, isNilPtrRecv, NewDumper, st0, bumpStringer]

/-- C3 (amended): the stringer override takes precedence over
structural descent for every kind including channel-like handles; only
a channel without a `String()` form is rendered by the channel rule
(type name plus `(nil)`, or the type name with the handle's address). -/
theorem C3_stringer_precedence (H : Heap) (cfg : Cfg) :
    (∀ (fuel : Nat) (s ty : String) (inner : Val) (ca : Bool) (ind : Nat)
        (st : St), ind ≤ cfg.maxDepth → isNilPtrRecv inner = false →
        printValue H cfg (fuel+1) (Val.vstringer s ty inner) ca ind st
          = some ([Tok.stringerTok s ty], bumpStringer st))
  ∧ (∀ (fuel : Nat) (ty : String) (a : Addr) (ca : Bool) (ind : Nat)
        (st : St), ind ≤ cfg.maxDepth →
        printValue H cfg (fuel+1) (Val.vchan ty false a) ca ind st
          = some ([Tok.chanAddr ty a], st))
  ∧ (∀ (fuel : Nat) (ty : String) (a : Addr) (ca : Bool) (ind : Nat)
        (st : St), ind ≤ cfg.maxDepth →
        printValue H cfg (fuel+1) (Val.vchan ty true a) ca ind st
          = some ([Tok.chanNil ty], st)) := by
  refine ⟨?_, ?_, ?_⟩
  · intro fuel s ty inner ca ind st h hn
    simp [printValue, asStringer, hn, Nat.not_lt.mpr h]
  · intro fuel ty a ca ind st h
    simp [printValue, asStringer, Nat.not_lt.mpr h]
  · intro fuel ty a ca ind st h
    simp [printValue, asStringer, Nat.not_lt.mpr h]

/-- C3 witness: the amended precedence theorem at concrete inputs — a
stringer-carrying channel rendered by the stringer rule and a plain
channel rendered by the channel rule. -/
theorem C3_stringer_precedence_witness :
    printValue [] NewDumper 1
        (Val.vstringer "tick" "godump.customChan"
          (Val.vchan "godump.customChan" false 77)) false 0 st0
      = some ([Tok.stringerTok "tick" "godump.customChan"], bumpStringer st0)
    ∧ printValue [] NewDumper 1 (Val.vchan "chan int" false 9) false 0 st0
      = some ([Tok.chanAddr "chan int" 9], st0) :=
  ⟨(C3_stringer_precedence [] NewDumper).1 0 ("tick") ("godump.customChan")
      (Val.vchan "godump.customChan" false 77) false 0 st0 (by decide)
      (by decide),
   (C3_stringer_precedence [] NewDumper).2.1 0 ("chan int") 9 false 0 st0
      (by decide)⟩

/-- C4 counterexample: with `maxStringLen = 2`, the two-code-point
string `"a\n"` is at the limit, so by the claim it should render as its
escaped form `a\\n` unaltered; the code escapes first and then truncates
on the escaped length (3 > 2), rendering `a\\…` — the escape sequence is
split and an ellipsis appears although the original string was within
the limit. -/
theorem C4_counterexample :
    ("a\n".length ≤ (WithMaxStringLen 2 NewDumper).maxStringLen)
    ∧ printValue [] (WithMaxStringLen 2 NewDumper) 1 (Val.vstr "a\n") false 0
        st0 = some ([Tok.strLit "a\\…"], st0)
    ∧ "a\\…" ≠ escapeControl "a\n" := by
  refine ⟨by decide, ?_, by decide⟩
  simp only [printValue, asStringer, isNil, typeNameOf, NewDumper,
    WithMaxStringLen, escapeControl, replaceChars, replacerPairs, st0]
  norm_num
  decide

/-- C4 (amended): escaping is applied first and truncation is decided
on the escaped string's code-point length: when `escapeControl s` is
within `maxStringLen` code points the rendering is exactly
`escapeControl s`; when it is longer, the rendering is exactly the
first `maxStringLen` code points of the escaped string followed by one
ellipsis.  (A string whose original length is within the limit can
therefore still be truncated when escaping lengthens it.) -/
theorem C4_string_truncation (H : Heap) (cfg : Cfg) :
    ∀ (fuel : Nat) (s : String) (ca : Bool) (ind : Nat) (st : St),
      ind ≤ cfg.maxDepth →
      ((escapeControl s).length ≤ cfg.maxStringLen →
        printValue H cfg (fuel+1) (Val.vstr s) ca ind st
          = some ([Tok.strLit (escapeControl s)], st))
      ∧ (cfg.maxStringLen < (escapeControl s).length →
        printValue H cfg (fuel+1) (Val.vstr s) ca ind st
          = some ([Tok.strLit
              (String.mk ((escapeControl s).data.take cfg.maxStringLen)
                ++ "…")], st)) := by
  intro fuel s ca ind st h
  constructor
  · intro hl
    simp [printValue, asStringer, isNil, Nat.not_lt.mpr h, Nat.not_lt.mpr hl]
  · intro hl
    simp [printValue, asStringer, isNil, Nat.not_lt.mpr h, hl]

/-- C4 witness: the amended truncation theorem at concrete inputs — a
short string rendered as its escaped form, and a long one truncated at
the escaped limit with one ellipsis. -/
theorem C4_string_truncation_witness :
    printValue [] NewDumper 1 (Val.vstr "hi") false 0 st0
      = some ([Tok.strLit (escapeControl "hi")], st0)
    ∧ printValue [] (WithMaxStringLen 2 NewDumper) 1 (Val.vstr "abcd") false 0
        st0 = some ([Tok.strLit
            (String.mk ((escapeControl "abcd").data.take 2) ++ "…")], st0) :=
  ⟨(C4_string_truncation [] NewDumper 0 ("hi") false 0 st0 (by decide)).1
      (by decide),
   (C4_string_truncation [] (WithMaxStringLen 2 NewDumper) 0 ("abcd") false 0
      st0 (by decide)).2 (by decide)⟩

/-- C8: a `String()` capability held through a nil pointer receiver
renders as `<type>(nil)` with the state unchanged — in particular the
`stringerCalls` counter does not move, so `String()` is never invoked —
and `asStringer` invokes the capability exactly on non-nil receivers. -/
theorem C8_nil_stringer_guard (H : Heap) (cfg : Cfg) :
    (∀ (fuel : Nat) (s ty pty : String) (ca : Bool) (ind : Nat) (st : St),
        ind ≤ cfg.maxDepth →
        printValue H cfg (fuel+1)
            (Val.vstringer s ty (Val.vptr pty none)) ca ind st
          = some ([Tok.stringerNil ty], st))
  ∧ (∀ (s ty : String) (inner : Val) (st : St), isNilPtrRecv inner = true →
        asStringer (Val.vstringer s ty inner) st = (StringerRes.nilPtr ty, st))
  ∧ (∀ (s ty : String) (inner : Val) (st : St), isNilPtrRecv inner = false →
        asStringer (Val.vstringer s ty inner) st
          = (StringerRes.text s ty, bumpStringer st)) := by
  refine ⟨?_, ?_, ?_⟩
  · intro fuel s ty pty ca ind st h
    simp [printValue, asStringer, isNilPtrRecv, Nat.not_lt.mpr h]
  · intro s ty inner st hn
    simp [asStringer, hn]
  · intro s ty inner st hn
    simp [asStringer, hn]

/-- C8 witness: the nil-receiver guard theorem at a concrete nil
pointer stringer; the resulting state is exactly the input state, so
`stringerCalls` stays put. -/
theorem C8_nil_stringer_guard_witness :
    printValue [] NewDumper 1
        (Val.vstringer "boom" "*godump.BadStringer"
          (Val.vptr "*godump.BadStringer" none)) false 0 st0
      = some ([Tok.stringerNil "*godump.BadStringer"], st0) :=
  (C8_nil_stringer_guard [] NewDumper).1 0 ("boom") ("*godump.BadStringer")
    ("*godump.BadStringer") false 0 st0 (by decide)

/-- C9: whenever `DumpHTML` returns, the global colorize backend and
the color-enabled flag have their values from before the call (the HTML
backend with color forced on is installed only for the duration of the
render and both globals are restored on exit), and the returned text is
the rendering wrapped in the `<body>`/`<pre>` document fragment. -/
theorem C9_dumphtml_restore (H : Heap) (cfg : Cfg) (fuel : Nat)
    (vs : List Val) (st : St) (out : List Tok) (st' : St)
    (h : DumpHTML H cfg fuel vs st = some (out, st')) :
    st'.backend = st.backend ∧ st'.enableColor = st.enableColor ∧
      ∃ mid, out = Tok.raw htmlOpen :: mid ++ [Tok.raw htmlClose] := by
  simp only [DumpHTML] at h
  split at h
  · exact absurd h (by simp)
  · simp only [Option.some.injEq, Prod.mk.injEq] at h
    obtain ⟨ho, hs⟩ := h
    refine ⟨by rw [← hs], by rw [← hs], _, ho.symm⟩

/-- C9 witness: the restore theorem applied to a concrete (empty)
render: the state comes back to `st0` and the output is exactly the
wrapper. -/
theorem C9_dumphtml_restore_witness :
    st0.backend = st0.backend ∧ st0.enableColor = st0.enableColor ∧
      ∃ mid, [Tok.raw htmlOpen, Tok.raw htmlClose]
        = Tok.raw htmlOpen :: mid ++ [Tok.raw htmlClose] :=
  C9_dumphtml_restore [] NewDumper 1 [] st0
    [Tok.raw htmlOpen, Tok.raw htmlClose] st0
    (by simp [DumpHTML, writeDump, writeVals, st0])

/-- The escaping pass distributes over concatenation (each character is
replaced independently, left to right). -/
theorem replaceChars_append (l1 l2 : List Char) :
    replaceChars (l1 ++ l2) = replaceChars l1 ++ replaceChars l2 := by
  induction l1 with
  | nil => simp [replaceChars]
  | cons c cs ih =>
    simp only [List.cons_append, replaceChars]
    cases replacerPairs.find? (fun p => p.1 == c) <;>
      simp [ih, String.append_assoc]

/-- C10: `escapeControl` is a per-character substitution: it distributes
over concatenation, replaces exactly the six designated characters —
newline, tab, carriage return, vertical tab, form feed, ESC — by their
literal escape sequences, and maps every other character (in
particular NUL, bell, backspace, quotes, backslashes) to itself, in
place. -/
theorem C10_escape_control :
    (∀ s t : String,
        escapeControl (s ++ t) = escapeControl s ++ escapeControl t)
  ∧ (escapeControl ("\n") = "\\n" ∧ escapeControl ("\t") = "\\t"
     ∧ escapeControl ("\r") = "\\r"
     ∧ escapeControl (String.singleton (Char.ofNat 11)) = "\\v"
     ∧ escapeControl (String.singleton (Char.ofNat 12)) = "\\f"
     ∧ escapeControl (String.singleton (Char.ofNat 27)) = "\\x1b")
  ∧ (∀ c : Char,
      c ∉ ['\n', '\t', '\r', Char.ofNat 11, Char.ofNat 12, Char.ofNat 27] →
      escapeControl (String.singleton c) = String.singleton c) := by
  refine ⟨?_, by decide, ?_⟩
  · intro s t
    simp only [escapeControl, String.data_append]
    exact replaceChars_append s.data t.data
  · intro c hc
    simp only [List.mem_cons, not_or] at hc
    obtain ⟨h1, h2, h3, h4, h5, h6, _⟩ := hc
    simp only [escapeControl, String.data_singleton, replaceChars,
      replacerPairs, List.find?]
    rw [show (('\n' == c) = false) from beq_eq_false_iff_ne.mpr (Ne.symm h1),
        show (('\t' == c) = false) from beq_eq_false_iff_ne.mpr (Ne.symm h2),
        show (('\r' == c) = false) from beq_eq_false_iff_ne.mpr (Ne.symm h3),
        show ((Char.ofNat 11 == c) = false) from
          beq_eq_false_iff_ne.mpr (Ne.symm h4),
        show ((Char.ofNat 12 == c) = false) from
          beq_eq_false_iff_ne.mpr (Ne.symm h5),
        show ((Char.ofNat 27 == c) = false) from
          beq_eq_false_iff_ne.mpr (Ne.symm h6)]
    simp [replaceChars]

/-- C10 witness: the six-character theorem at concrete characters — a
newline is escaped; NUL, bell, a double quote and a backslash pass
through unchanged. -/
theorem C10_escape_control_witness :
    escapeControl ("\n") = "\\n"
    ∧ escapeControl (String.singleton (Char.ofNat 0))
        = String.singleton (Char.ofNat 0)
    ∧ escapeControl (String.singleton (Char.ofNat 7))
        = String.singleton (Char.ofNat 7)
    ∧ escapeControl (String.singleton '"') = String.singleton '"'
    ∧ escapeControl (String.singleton (Char.ofNat 92))
        = String.singleton (Char.ofNat 92) :=
  ⟨C10_escape_control.2.1.1,
   C10_escape_control.2.2 (Char.ofNat 0) (by decide),
   C10_escape_control.2.2 (Char.ofNat 7) (by decide),
   C10_escape_control.2.2 '"' (by decide),
   C10_escape_control.2.2 (Char.ofNat 92) (by decide)⟩

/-- Struct dispatch step of `printValue` below the depth guard: emit
the `#type` header, the fields, the closing brace. -/
theorem pv_struct_step (H : Heap) (cfg : Cfg) (fuel : Nat) (ty : String)
    (fs : List (String × Bool × Val)) (ca : Bool) (ind : Nat) (st : St)
    (h : ind ≤ cfg.maxDepth) :
    printValue H cfg (fuel+1) (Val.vstruct ty fs) ca ind st =
      match printStructFields H cfg fuel fs ca ind st with
      | none => none
      | some (ts, st') =>
          some (Tok.structHeader ty :: Tok.newline :: ts ++
                  [Tok.closeBrace ind], st') := by
  simp [printValue, asStringer, isNil, Nat.not_lt.mpr h]

/-- The field loop on no fields renders nothing. -/
theorem psf_nil (H : Heap) (cfg : Cfg) (fuel : Nat) (ca : Bool) (ind : Nat)
    (st : St) :
    printStructFields H cfg (fuel+1) [] ca ind st = some ([], st) := by
  simp [printStructFields]

/-- The field loop on a field without a stringer form: label, recursive
rendering at `indent+1`, newline, rest. -/
theorem psf_cons_noStr (H : Heap) (cfg : Cfg) (fuel : Nat)
    (name : String) (ex : Bool) (fv : Val)
    (fs : List (String × Bool × Val)) (ca : Bool) (ind : Nat) (st : St)
    (hA : asStringer (if ex then fv else forceExported fv) st
            = (StringerRes.noStr, st)) :
    printStructFields H cfg (fuel+1) ((name, ex, fv) :: fs) ca ind st =
      match printValue H cfg fuel (if ex then fv else forceExported fv) ca
          (ind+1) st with
      | none => none
      | some (ts, st1) =>
          match printStructFields H cfg fuel fs ca ind st1 with
          | none => none
          | some (rest, st2) =>
              some (Tok.fieldLabel (if ex then "+" else "-") name (ind+1) ::
                      ts ++ Tok.newline :: rest, st2) := by
  simp [printStructFields, hA]

/-- Rendering of the nested-struct chain `nestVal n` from depth `i`
within fuel `2n+1`: it always terminates, leaves the state untouched,
and its output carries exactly one depth-truncation marker when the
chain reaches past `maxDepth`, none otherwise. -/
theorem nest_render (H : Heap) (cfg : Cfg) :
    ∀ (n i : Nat) (st : St), i ≤ cfg.maxDepth →
      ∃ ts, printValue H cfg (2*n+1) (nestVal n) true i st = some (ts, st)
        ∧ ts.count Tok.maxDepthMarker
            = if cfg.maxDepth < n + i then 1 else 0 := by
  intro n
  induction n with
  | zero =>
    intro i st hi
    refine ⟨[Tok.intLit 0], ?_, ?_⟩
    · show printValue H cfg (0+1) (nestVal 0) true i st = _
      simp [printValue, nestVal, asStringer, isNil, Nat.not_lt.mpr hi]
    · have hn : ¬ (cfg.maxDepth < i) := by omega
      simp [hn]
  | succ n ih =>
    intro i st hi
    have hA : asStringer (if true then nestVal n else forceExported (nestVal n))
        st = (StringerRes.noStr, st) := by
      simpa using nestVal_asStringer n st
    by_cases hd : i + 1 ≤ cfg.maxDepth
    · obtain ⟨ts, hts, hc⟩ := ih (i+1) st hd
      refine ⟨Tok.structHeader "godump.Nest" :: Tok.newline ::
        (Tok.fieldLabel "+" "Child" (i+1) :: ts ++ [Tok.newline]) ++
          [Tok.closeBrace i], ?_, ?_⟩
      · rw [show 2*(n+1)+1 = (2*n+2)+1 by ring, show nestVal (n+1) =
            Val.vstruct "godump.Nest" [("Child", true, nestVal n)] from rfl,
          pv_struct_step _ _ _ _ _ _ _ _ hi,
          show (2*n+2 : Nat) = (2*n+1)+1 by ring,
          psf_cons_noStr _ _ _ _ _ _ _ _ _ _ hA]
        simp only [if_true]
        rw [hts]
        simp [psf_nil]
      · simp only [List.count_cons, List.count_append, hc]
        by_cases h2 : cfg.maxDepth < n + (i + 1)
        · have h3 : cfg.maxDepth < (n+1) + i := by omega
          simp [h2, h3]
        · have h3 : ¬ (cfg.maxDepth < (n+1) + i) := by omega
          simp [h2, h3]
    · have hieq : cfg.maxDepth < i + 1 := by omega
      refine ⟨Tok.structHeader "godump.Nest" :: Tok.newline ::
        (Tok.fieldLabel "+" "Child" (i+1) :: [Tok.maxDepthMarker] ++
          [Tok.newline]) ++ [Tok.closeBrace i], ?_, ?_⟩
      · rw [show 2*(n+1)+1 = (2*n+2)+1 by ring, show nestVal (n+1) =
            Val.vstruct "godump.Nest" [("Child", true, nestVal n)] from rfl,
          pv_struct_step _ _ _ _ _ _ _ _ hi,
          show (2*n+2 : Nat) = (2*n+1)+1 by ring,
          psf_cons_noStr _ _ _ _ _ _ _ _ _ _ hA]
        simp only [if_true]
        rw [show (2*n+1 : Nat) = (2*n)+1 from rfl,
          pv_depth_guard _ _ _ _ _ _ _ hieq]
        simp [psf_nil]
      · have h3 : cfg.maxDepth < (n+1) + i := by omega
        simp [h3]

/-- C6: the depth guard — past `maxDepth`, `printValue` emits the
truncation marker and returns, independently of the node (so nothing of
the node is read) and without touching the state; unwrapping a pointer
or an interface recurses at the same depth (transparent to depth
accounting), and a struct chain nested deeper than `maxDepth` renders
exactly one truncation marker — at the node past the configured depth —
while a chain within the bound renders none. -/
theorem C6_depth_guard (H : Heap) (cfg : Cfg) :
    (∀ (fuel : Nat) (v : Val) (ca : Bool) (ind : Nat) (st : St),
        cfg.maxDepth < ind →
        printValue H cfg (fuel+1) v ca ind st
          = some ([Tok.maxDepthMarker], st))
  ∧ (∀ (fuel : Nat) (ty : String) (w : Val) (ca : Bool) (ind : Nat)
        (st : St), ind ≤ cfg.maxDepth →
        printValue H cfg (fuel+1) (Val.viface ty (some w)) ca ind st
          = printValue H cfg fuel w false ind st)
  ∧ (∀ (fuel : Nat) (ty : String) (a : Addr) (ind : Nat) (st : St),
        ind ≤ cfg.maxDepth →
        printValue H cfg (fuel+1) (Val.vptr ty (some a)) false ind st
          = printValue H cfg fuel (derefAddr H a) true ind st)
  ∧ (∀ (fuel : Nat) (ty : String) (a : Addr) (ind : Nat) (st : St),
        ind ≤ cfg.maxDepth → lookupRef st.refMap a = none →
        printValue H cfg (fuel+1) (Val.vptr ty (some a)) true ind st
          = printValue H cfg fuel (derefAddr H a) true ind
              { st with refMap := st.refMap ++ [(a, st.nextRefID)],
                        nextRefID := st.nextRefID + 1 })
  ∧ (∀ (n : Nat) (st : St), ∃ ts,
        printValue H cfg (2*n+1) (nestVal n) true 0 st = some (ts, st)
        ∧ ts.count Tok.maxDepthMarker
            = if cfg.maxDepth < n then 1 else 0) :=
  ⟨fun fuel v ca ind st h => pv_depth_guard H cfg fuel v ca ind st h,
   fun fuel ty w ca ind st h => pv_iface_step H cfg fuel ty w ca ind st h,
   fun fuel ty a ind st h => pv_ptr_step H cfg fuel ty a ind st h,
   fun fuel ty a ind st h hl => pv_ptr_register H cfg fuel ty a ind st h hl,
   fun n st => by simpa using nest_render H cfg n 0 st (Nat.zero_le _)⟩

/-- C6 witness: the depth guard theorem at concrete inputs — a node at
depth 16 under the default limit 15 yields only the marker, and the
17-deep chain renders exactly one marker. -/
theorem C6_depth_guard_witness :
    printValue [] NewDumper 3 (Val.vbool true) false 16 st0
      = some ([Tok.maxDepthMarker], st0)
    ∧ ∃ ts, printValue [] NewDumper (2*16+1) (nestVal 16) true 0 st0
          = some (ts, st0)
        ∧ ts.count Tok.maxDepthMarker
            = if NewDumper.maxDepth < 16 then 1 else 0 :=
  ⟨(C6_depth_guard [] NewDumper).1 2 (Val.vbool true) false 16 st0 (by decide),
   (C6_depth_guard [] NewDumper).2.2.2.2 16 st0⟩

/-- C7: every declared field of a struct is rendered exactly once, in
declaration order — the rendered token stream of the field loop
decomposes as one `<symbol><name>` label per declared field (`+` when
the field is exported, `-` when it is unexported) each followed by that
field's rendered value and a newline — so the rendered field count
equals the declared field count.  Unexported fields are read through
the identity-preserving `forceExported` re-view (baked into the loop's
definition) rather than skipped, so they too contribute their rendered
value.  Fields of embedded/anonymous members are themselves declared
fields of the embedded struct value and are rendered by the same loop
one level deeper. -/
theorem C7_struct_fields (H : Heap) (cfg : Cfg) :
    ∀ (fs : List (String × Bool × Val)) (fuel : Nat) (ca : Bool) (ind : Nat)
      (st : St) (toks : List Tok) (st' : St),
      printStructFields H cfg fuel fs ca ind st = some (toks, st') →
      ∃ rs : List (List Tok), rs.length = fs.length
        ∧ toks = glueFields fs rs ind := by
  intro fs
  induction fs with
  | nil =>
    intro fuel ca ind st toks st' h
    match fuel with
    | 0 => simp [printStructFields] at h
    | fuel+1 =>
      rw [psf_nil] at h
      simp only [Option.some.injEq, Prod.mk.injEq] at h
      exact ⟨[], rfl, by simp [glueFields, ← h.1]⟩
  | cons f fs ih =>
    obtain ⟨name, ex, fv⟩ := f
    intro fuel ca ind st toks st' h
    match fuel with
    | 0 => simp [printStructFields] at h
    | fuel+1 =>
      rcases hA : asStringer (if ex then fv else forceExported fv) st
        with ⟨res, stA⟩
      cases res with
      | nilPtr ty =>
        simp only [printStructFields, hA] at h
        rcases hR : printStructFields H cfg fuel fs ca ind stA
          with _ | ⟨rest, st2⟩
        · simp [hR] at h
        · simp only [hR, Option.some.injEq, Prod.mk.injEq] at h
          obtain ⟨rs, hlen, hglue⟩ := ih fuel ca ind stA rest st2 hR
          refine ⟨[Tok.stringerNil ty] :: rs, by simp [hlen], ?_⟩
          rw [← h.1, hglue]
          simp [glueFields]
      | text s ty =>
        simp only [printStructFields, hA] at h
        rcases hR : printStructFields H cfg fuel fs ca ind stA
          with _ | ⟨rest, st2⟩
        · simp [hR] at h
        · simp only [hR, Option.some.injEq, Prod.mk.injEq] at h
          obtain ⟨rs, hlen, hglue⟩ := ih fuel ca ind stA rest st2 hR
          refine ⟨[Tok.stringerTok s ty] :: rs, by simp [hlen], ?_⟩
          rw [← h.1, hglue]
          simp [glueFields]
      | noStr =>
        simp only [printStructFields, hA] at h
        rcases hV : printValue H cfg fuel (if ex then fv else forceExported fv)
            ca (ind+1) st with _ | ⟨ts, stV⟩
        · simp [hV] at h
        · simp only [hV] at h
          rcases hR : printStructFields H cfg fuel fs ca ind stV
            with _ | ⟨rest, st2⟩
          · simp [hR] at h
          · simp only [hR, Option.some.injEq, Prod.mk.injEq] at h
            obtain ⟨rs, hlen, hglue⟩ := ih fuel ca ind stV rest st2 hR
            refine ⟨ts :: rs, by simp [hlen], ?_⟩
            rw [← h.1, hglue]
            simp [glueFields]

/-- C7 witness: the decomposition theorem at a concrete two-field
struct (one exported, one unexported): the rendered tokens are exactly
`+Name`, its value, newline, `-age`, its value, newline. -/
theorem C7_struct_fields_witness :
    ∃ rs : List (List Tok), rs.length =
        ([("Name", true, Val.vstr "Go"), ("age", false, Val.vint 3)] :
          List (String × Bool × Val)).length
      ∧ [Tok.fieldLabel "+" "Name" 1, Tok.strLit "Go", Tok.newline,
         Tok.fieldLabel "-" "age" 1, Tok.intLit 3, Tok.newline]
        = glueFields [("Name", true, Val.vstr "Go"), ("age", false, Val.vint 3)]
            rs 0 :=
  C7_struct_fields [] NewDumper
    [("Name", true, Val.vstr "Go"), ("age", false, Val.vint 3)] 3 true 0 st0
    [Tok.fieldLabel "+" "Name" 1, Tok.strLit "Go", Tok.newline,
     Tok.fieldLabel "-" "age" 1, Tok.intLit 3, Tok.newline] st0
    (by
      simp [printStructFields, printValue, asStringer, forceExported,
        escapeControl, replaceChars, replacerPairs, isNil, NewDumper, st0]
      decide)

/-- Below the item budget, the bounded map-entry loop coincides with
the unbounded one. -/
theorem pme_le (H : Heap) (cfg : Cfg) :
    ∀ (es : List (String × Val)) (fuel i ind : Nat) (st : St),
      i + es.length ≤ cfg.maxItems →
      printMapEntries H cfg fuel es i ind st
        = printMapEntriesUnbounded H cfg fuel es ind st := by
  intro es
  induction es with
  | nil =>
    intro fuel i ind st _
    match fuel with
    | 0 => simp [printMapEntries, printMapEntriesUnbounded]
    | fuel+1 => simp [printMapEntries, printMapEntriesUnbounded]
  | cons e es ih =>
    obtain ⟨k, v⟩ := e
    intro fuel i ind st hle
    match fuel with
    | 0 => simp [printMapEntries, printMapEntriesUnbounded]
    | fuel+1 =>
      have hni : ¬ (cfg.maxItems ≤ i) := by simp at hle; omega
      rcases hV : printValue H cfg fuel v false (ind+1) st with _ | ⟨ts, st1⟩
      · simp [printMapEntries, printMapEntriesUnbounded, if_neg hni, hV]
      · simp [printMapEntries, printMapEntriesUnbounded, if_neg hni, hV,
          ih fuel (i+1) ind st1 (by simp at hle ⊢; omega)]

/-- Past the item budget, the bounded map-entry loop renders exactly
the remaining budget's worth of entries followed by one truncation
marker, and stops. -/
theorem pme_gt (H : Heap) (cfg : Cfg) :
    ∀ (es : List (String × Val)) (fuel i ind : Nat) (st : St),
      i ≤ cfg.maxItems → cfg.maxItems < i + es.length →
      printMapEntries H cfg fuel es i ind st
        = match printMapEntriesUnbounded H cfg fuel
              (es.take (cfg.maxItems - i)) ind st with
          | none => none
          | some (ts, st') => some (ts ++ [Tok.truncated (ind+1)], st') := by
  intro es
  induction es with
  | nil =>
    intro fuel i ind st hi hgt
    simp at hgt
    omega
  | cons e es ih =>
    obtain ⟨k, v⟩ := e
    intro fuel i ind st hi hgt
    match fuel with
    | 0 => simp [printMapEntries, printMapEntriesUnbounded]
    | fuel+1 =>
      by_cases hib : cfg.maxItems ≤ i
      · have hi0 : cfg.maxItems - i = 0 := by omega
        simp [printMapEntries, printMapEntriesUnbounded, if_pos hib, hi0]
      · have htk : cfg.maxItems - i = (cfg.maxItems - (i+1)) + 1 := by omega
        rw [htk, List.take_succ_cons]
        rcases hV : printValue H cfg fuel v false (ind+1) st with _ | ⟨ts, st1⟩
        · simp [printMapEntries, printMapEntriesUnbounded, if_neg hib, hV]
        · rw [show printMapEntries H cfg (fuel+1) ((k, v) :: es) i ind st
              = match printMapEntries H cfg fuel es (i+1) ind st1 with
                | none => none
                | some (rest, st2) =>
                    some (Tok.mapKey k (ind+1) :: ts ++ Tok.newline :: rest,
                      st2) by simp [printMapEntries, if_neg hib, hV]]
          rw [ih fuel (i+1) ind st1 (by omega) (by simp at hgt ⊢; omega)]
          rcases hU : printMapEntriesUnbounded H cfg fuel
              (es.take (cfg.maxItems - (i+1))) ind st1 with _ | ⟨ts2, st2⟩
          · simp [printMapEntriesUnbounded, hV, hU]
          · simp [printMapEntriesUnbounded, hV, hU]

/-- Below the item budget, the bounded slice/array element loop
coincides with the unbounded one. -/
theorem psl_le (H : Heap) (cfg : Cfg) :
    ∀ (xs : List Val) (fuel i ind : Nat) (eca : Bool) (st : St),
      i + xs.length ≤ cfg.maxItems →
      printSliceElems H cfg fuel xs i ind eca st
        = printSliceElemsUnbounded H cfg fuel xs i ind eca st := by
  intro xs
  induction xs with
  | nil =>
    intro fuel i ind eca st _
    match fuel with
    | 0 => simp [printSliceElems, printSliceElemsUnbounded]
    | fuel+1 => simp [printSliceElems, printSliceElemsUnbounded]
  | cons x xs ih =>
    intro fuel i ind eca st hle
    match fuel with
    | 0 => simp [printSliceElems, printSliceElemsUnbounded]
    | fuel+1 =>
      have hni : ¬ (cfg.maxItems ≤ i) := by simp at hle; omega
      rcases hV : printValue H cfg fuel x eca (ind+1) st with _ | ⟨ts, st1⟩
      · simp [printSliceElems, printSliceElemsUnbounded, if_neg hni, hV]
      · simp [printSliceElems, printSliceElemsUnbounded, if_neg hni, hV,
          ih fuel (i+1) ind eca st1 (by simp at hle ⊢; omega)]

/-- Past the item budget, the bounded slice/array element loop renders
exactly the remaining budget's worth of elements followed by one
truncation marker (with its newline), and stops. -/
theorem psl_gt (H : Heap) (cfg : Cfg) :
    ∀ (xs : List Val) (fuel i ind : Nat) (eca : Bool) (st : St),
      i ≤ cfg.maxItems → cfg.maxItems < i + xs.length →
      printSliceElems H cfg fuel xs i ind eca st
        = match printSliceElemsUnbounded H cfg fuel
              (xs.take (cfg.maxItems - i)) i ind eca st with
          | none => none
          | some (ts, st') =>
              some (ts ++ [Tok.truncated (ind+1), Tok.newline], st') := by
  intro xs
  induction xs with
  | nil =>
    intro fuel i ind eca st hi hgt
    simp at hgt
    omega
  | cons x xs ih =>
    intro fuel i ind eca st hi hgt
    match fuel with
    | 0 => simp [printSliceElems, printSliceElemsUnbounded]
    | fuel+1 =>
      by_cases hib : cfg.maxItems ≤ i
      · have hi0 : cfg.maxItems - i = 0 := by omega
        simp [printSliceElems, printSliceElemsUnbounded, if_pos hib, hi0]
      · have htk : cfg.maxItems - i = (cfg.maxItems - (i+1)) + 1 := by omega
        rw [htk, List.take_succ_cons]
        rcases hV : printValue H cfg fuel x eca (ind+1) st with _ | ⟨ts, st1⟩
        · simp [printSliceElems, printSliceElemsUnbounded, if_neg hib, hV]
        · rw [show printSliceElems H cfg (fuel+1) (x :: xs) i ind eca st
              = match printSliceElems H cfg fuel xs (i+1) ind eca st1 with
                | none => none
                | some (rest, st2) =>
                    some (Tok.seqIdx i (ind+1) :: ts ++ Tok.newline :: rest,
                      st2) by simp [printSliceElems, if_neg hib, hV]]
          rw [ih fuel (i+1) ind eca st1 (by omega) (by simp at hgt ⊢; omega)]
          rcases hU : printSliceElemsUnbounded H cfg fuel
              (xs.take (cfg.maxItems - (i+1))) (i+1) ind eca st1
            with _ | ⟨ts2, st2⟩
          · simp [printSliceElemsUnbounded, hV, hU]
          · simp [printSliceElemsUnbounded, hV, hU]

/-- Map dispatch step of `printValue` below the depth guard, for a
non-nil map: `{`, the entry loop, the closing brace. -/
theorem pv_map_step (H : Heap) (cfg : Cfg) (fuel : Nat) (ty : String)
    (nb : Bool) (es : List (String × Val)) (ca : Bool) (ind : Nat) (st : St)
    (h : ind ≤ cfg.maxDepth) (hnb : nb = false) :
    printValue H cfg (fuel+1) (Val.vmap ty nb es) ca ind st =
      match printMapEntries H cfg fuel es 0 ind st with
      | none => none
      | some (ts, st') =>
          some (Tok.mapOpen :: Tok.newline :: ts ++ [Tok.closeBrace ind],
            st') := by
  subst hnb
  simp [printValue, asStringer, isNil, Nat.not_lt.mpr h]

/-- Slice/array dispatch step of `printValue` below the depth guard,
for a non-nil, non-byte-element sequence: `[`, the element loop (slice
elements addressable, array elements inheriting the array's
addressability), the closing bracket. -/
theorem pv_slice_step (H : Heap) (cfg : Cfg) (fuel : Nat) (ty : String)
    (sl : Bool) (xs : List Val) (ca : Bool) (ind : Nat) (st : St)
    (h : ind ≤ cfg.maxDepth) :
    printValue H cfg (fuel+1) (Val.vslice ty sl false false xs) ca ind st =
      match printSliceElems H cfg fuel xs 0 ind (sl || ca) st with
      | none => none
      | some (ts, st') =>
          some (Tok.seqOpen :: Tok.newline :: ts ++ [Tok.closeBracket ind],
            st') := by
  cases sl <;> simp [printValue, asStringer, isNil, Nat.not_lt.mpr h]

/-- C5: for a map or a non-byte slice/array with at most `maxItems`
entries, the rendering is exactly the unbounded rendering of all its
entries — the loop itself emits no truncation marker; with more than
`maxItems` entries, the rendering is exactly the unbounded rendering of
the first `maxItems` entries followed by exactly one truncation marker,
and iteration stops there. -/
theorem C5_item_truncation (H : Heap) (cfg : Cfg) :
    (∀ (fuel : Nat) (ty : String) (es : List (String × Val)) (ca : Bool)
        (ind : Nat) (st : St), ind ≤ cfg.maxDepth →
        es.length ≤ cfg.maxItems →
        printValue H cfg (fuel+1) (Val.vmap ty false es) ca ind st
          = match printMapEntriesUnbounded H cfg fuel es ind st with
            | none => none
            | some (ts, st') =>
                some (Tok.mapOpen :: Tok.newline :: ts ++
                        [Tok.closeBrace ind], st'))
  ∧ (∀ (fuel : Nat) (ty : String) (es : List (String × Val)) (ca : Bool)
        (ind : Nat) (st : St), ind ≤ cfg.maxDepth →
        cfg.maxItems < es.length →
        printValue H cfg (fuel+1) (Val.vmap ty false es) ca ind st
          = match printMapEntriesUnbounded H cfg fuel (es.take cfg.maxItems)
                ind st with
            | none => none
            | some (ts, st') =>
                some (Tok.mapOpen :: Tok.newline :: ts ++
                        Tok.truncated (ind+1) :: [Tok.closeBrace ind], st'))
  ∧ (∀ (fuel : Nat) (ty : String) (sl : Bool) (xs : List Val) (ca : Bool)
        (ind : Nat) (st : St), ind ≤ cfg.maxDepth →
        xs.length ≤ cfg.maxItems →
        printValue H cfg (fuel+1) (Val.vslice ty sl false false xs) ca ind st
          = match printSliceElemsUnbounded H cfg fuel xs 0 ind (sl || ca)
                st with
            | none => none
            | some (ts, st') =>
                some (Tok.seqOpen :: Tok.newline :: ts ++
                        [Tok.closeBracket ind], st'))
  ∧ (∀ (fuel : Nat) (ty : String) (sl : Bool) (xs : List Val) (ca : Bool)
        (ind : Nat) (st : St), ind ≤ cfg.maxDepth →
        cfg.maxItems < xs.length →
        printValue H cfg (fuel+1) (Val.vslice ty sl false false xs) ca ind st
          = match printSliceElemsUnbounded H cfg fuel (xs.take cfg.maxItems) 0
                ind (sl || ca) st with
            | none => none
            | some (ts, st') =>
                some (Tok.seqOpen :: Tok.newline :: ts ++ Tok.truncated (ind+1)
                        :: Tok.newline :: [Tok.closeBracket ind], st')) := by
  refine ⟨?_, ?_, ?_, ?_⟩
  · intro fuel ty es ca ind st h hle
    rw [pv_map_step H cfg fuel ty false es ca ind st h rfl,
      pme_le H cfg es fuel 0 ind st (by simpa using hle)]
  · intro fuel ty es ca ind st h hgt
    rw [pv_map_step H cfg fuel ty false es ca ind st h rfl,
      pme_gt H cfg es fuel 0 ind st (Nat.zero_le _) (by simpa using hgt)]
    simp only [Nat.sub_zero]
    rcases hU : printMapEntriesUnbounded H cfg fuel (es.take cfg.maxItems)
        ind st with _ | ⟨ts, st'⟩ <;> simp [hU]
  · intro fuel ty sl xs ca ind st h hle
    rw [pv_slice_step H cfg fuel ty sl xs ca ind st h,
      psl_le H cfg xs fuel 0 ind (sl || ca) st (by simpa using hle)]
  · intro fuel ty sl xs ca ind st h hgt
    rw [pv_slice_step H cfg fuel ty sl xs ca ind st h,
      psl_gt H cfg xs fuel 0 ind (sl || ca) st (Nat.zero_le _)
        (by simpa using hgt)]
    simp only [Nat.sub_zero]
    rcases hU : printSliceElemsUnbounded H cfg fuel (xs.take cfg.maxItems) 0
        ind (sl || ca) st with _ | ⟨ts, st'⟩ <;> simp [hU]

/-- C5 witness: the truncation theorem at a concrete map of two entries
under `maxItems = 1`: one rendered entry, then one marker. -/
theorem C5_item_truncation_witness :
    printValue [] (WithMaxItems 1 NewDumper) 5
        (Val.vmap "map[string]int" false [("a", Val.vint 1), ("b", Val.vint 2)])
        false 0 st0
      = match printMapEntriesUnbounded [] (WithMaxItems 1 NewDumper) 4
            ([("a", Val.vint 1), ("b", Val.vint 2)].take
              (WithMaxItems 1 NewDumper).maxItems) 0 st0 with
        | none => none
        | some (ts, st') =>
            some (Tok.mapOpen :: Tok.newline :: ts ++
                    Tok.truncated (0+1) :: [Tok.closeBrace 0], st') :=
  (C5_item_truncation [] (WithMaxItems 1 NewDumper)).2.1 4 ("map[string]int")
    [("a", Val.vint 1), ("b", Val.vint 2)] false 0 st0 (by decide) (by decide)

/-- A failed reference-map lookup means the address is not among the
registered keys. -/
theorem lookupRef_none : ∀ {m : List (Addr × Nat)} {a : Addr},
    lookupRef m a = none → a ∉ m.map Prod.fst := by
  intro m
  induction m with
  | nil => intro a _; simp
  | cons p m ih =>
    obtain ⟨x, id⟩ := p
    intro a h
    simp only [lookupRef] at h
    by_cases hx : a = x
    · simp [hx] at h
    · rw [if_neg hx] at h
      simp only [List.map_cons, List.mem_cons, not_or]
      exact ⟨hx, ih h⟩

/-- Recording a `String()` invocation does not touch the reference
state. -/
theorem RefInv_bump (k : Nat) (st : St) (hInv : RefInv k st) :
    RefInv k (bumpStringer st) := hInv

/-- Registering a fresh address under the current counter value and
bumping the counter preserves the reference-tracker invariant: the new
id extends the consecutive run, the key is new, the counter moves past
it. -/
theorem RefInv_insert (k : Nat) (st : St) (a : Addr) (hInv : RefInv k st)
    (hl : lookupRef st.refMap a = none) :
    RefInv k { st with refMap := st.refMap ++ [(a, st.nextRefID)],
                       nextRefID := st.nextRefID + 1 } := by
  obtain ⟨h1, h2, h3⟩ := hInv
  have ha : a ∉ st.refMap.map Prod.fst := lookupRef_none hl
  refine ⟨?_, ?_, ?_⟩
  · simp only [List.map_append, List.length_append, List.map_cons,
      List.map_nil, List.length_map, List.length_cons, List.length_nil]
    rw [h1, h3]
    simp [List.range'_concat]
  · simp only [List.map_append, List.nodup_append, List.map_cons, List.map_nil]
    refine ⟨h2, by simp, ?_⟩
    intro x hx
    simp only [List.mem_cons, List.not_mem_nil, or_false]
    intro hxa
    exact ha (hxa ▸ hx)
  · simp only [List.length_append, List.length_cons, List.length_nil]
    omega

/-- `asStringer` either leaves the state unchanged or records exactly
one `String()` invocation; it never touches the reference state. -/
theorem asStringer_state (v : Val) (st : St) :
    (asStringer v st).2 = st ∨ (asStringer v st).2 = bumpStringer st := by
  cases v with
  | vstringer s ty inner =>
    by_cases hn : isNilPtrRecv inner <;> simp [asStringer, hn]
  | _ => simp [asStringer]

/-- The reference-tracker invariant is preserved by the whole mutual
rendering recursion: every id is assigned by the single
check-then-register step on addressable pointers, so ids stay
consecutive in first-visit order and no address is registered twice. -/
theorem refInvAll (H : Heap) (cfg : Cfg) : ∀ fuel : Nat,
    (∀ (v : Val) (ca : Bool) (ind : Nat) (st : St) (out : List Tok) (st' : St)
        (k : Nat), RefInv k st →
        printValue H cfg fuel v ca ind st = some (out, st') → RefInv k st')
  ∧ (∀ (fs : List (String × Bool × Val)) (ca : Bool) (ind : Nat) (st : St)
        (out : List Tok) (st' : St) (k : Nat), RefInv k st →
        printStructFields H cfg fuel fs ca ind st = some (out, st') →
        RefInv k st')
  ∧ (∀ (es : List (String × Val)) (i ind : Nat) (st : St) (out : List Tok)
        (st' : St) (k : Nat), RefInv k st →
        printMapEntries H cfg fuel es i ind st = some (out, st') →
        RefInv k st')
  ∧ (∀ (xs : List Val) (i ind : Nat) (eca : Bool) (st : St) (out : List Tok)
        (st' : St) (k : Nat), RefInv k st →
        printSliceElems H cfg fuel xs i ind eca st = some (out, st') →
        RefInv k st') := by
  intro fuel
  induction fuel with
  | zero =>
    refine ⟨?_, ?_, ?_, ?_⟩
    · intro v ca ind st out st' k _ h; simp [printValue] at h
    · intro fs ca ind st out st' k _ h; simp [printStructFields] at h
    · intro es i ind st out st' k _ h; simp [printMapEntries] at h
    · intro xs i ind eca st out st' k _ h; simp [printSliceElems] at h
  | succ fuel ih =>
    obtain ⟨ihV, ihF, ihE, ihX⟩ := ih
    refine ⟨?_, ?_, ?_, ?_⟩
    · -- printValue
      intro v ca ind st out st' k hInv h
      by_cases hd : cfg.maxDepth < ind
      · rw [pv_depth_guard H cfg fuel v ca ind st hd] at h
        simp only [Option.some.injEq, Prod.mk.injEq] at h
        rwa [← h.2]
      · have hnd : ind ≤ cfg.maxDepth := by omega
        cases v with
        | vinvalid =>
          simp [printValue, asStringer, Nat.not_lt.mpr hnd] at h
          rwa [← h.2]
        | vbool b =>
          simp [printValue, asStringer, isNil, Nat.not_lt.mpr hnd] at h
          rwa [← h.2]
        | vint n =>
          simp [printValue, asStringer, isNil, Nat.not_lt.mpr hnd] at h
          rwa [← h.2]
        | vuint n =>
          simp [printValue, asStringer, isNil, Nat.not_lt.mpr hnd] at h
          rwa [← h.2]
        | vfloat r =>
          simp [printValue, asStringer, isNil, Nat.not_lt.mpr hnd] at h
          rwa [← h.2]
        | vcomplex r =>
          simp [printValue, asStringer, isNil, Nat.not_lt.mpr hnd] at h
          rwa [← h.2]
        | vstr s =>
          simp [printValue, asStringer, isNil, Nat.not_lt.mpr hnd] at h
          rwa [← h.2]
        | vuptr a =>
          simp [printValue, asStringer, isNil, Nat.not_lt.mpr hnd] at h
          rwa [← h.2]
        | vfunc ty nb =>
          cases nb <;>
            simp [printValue, asStringer, isNil, typeNameOf,
              Nat.not_lt.mpr hnd] at h <;>
            rwa [← h.2]
        | vchan ty nb a =>
          cases nb <;>
            simp [printValue, asStringer, Nat.not_lt.mpr hnd] at h <;>
            rwa [← h.2]
        | vstringer s ty inner =>
          by_cases hn : isNilPtrRecv inner
          · simp [printValue, asStringer, hn, Nat.not_lt.mpr hnd] at h
            rwa [← h.2]
          · simp [printValue, asStringer, hn, Nat.not_lt.mpr hnd,
              bumpStringer] at h
            rw [← h.2]
            exact hInv
        | vptr ty t =>
          cases t with
          | none =>
            simp [printValue, asStringer, isNil, typeNameOf,
              Nat.not_lt.mpr hnd] at h
            rwa [← h.2]
          | some a =>
            cases ca with
            | false =>
              rw [pv_ptr_step H cfg fuel ty a ind st hnd] at h
              exact ihV _ _ _ _ _ _ _ hInv h
            | true =>
              rcases hl : lookupRef st.refMap a with _ | id
              · rw [pv_ptr_register H cfg fuel ty a ind st hnd hl] at h
                exact ihV _ _ _ _ _ _ _ (RefInv_insert k st a hInv hl) h
              · rw [pv_ptr_backref H cfg fuel ty a id ind st hnd hl] at h
                simp only [Option.some.injEq, Prod.mk.injEq] at h
                rwa [← h.2]
        | viface ty o =>
          cases o with
          | none =>
            simp [printValue, asStringer, isNil, typeNameOf,
              Nat.not_lt.mpr hnd] at h
            rwa [← h.2]
          | some w =>
            rw [pv_iface_step H cfg fuel ty w ca ind st hnd] at h
            exact ihV _ _ _ _ _ _ _ hInv h
        | vstruct ty fs =>
          rw [pv_struct_step H cfg fuel ty fs ca ind st hnd] at h
          rcases hF : printStructFields H cfg fuel fs ca ind st
            with _ | ⟨ts, stF⟩
          · rw [hF] at h; exact absurd h (by simp)
          · rw [hF] at h
            simp only [Option.some.injEq, Prod.mk.injEq] at h
            rw [← h.2]
            exact ihF _ _ _ _ _ _ _ hInv hF
        | vmap ty nb es =>
          cases nb with
          | true =>
            simp [printValue, asStringer, isNil, typeNameOf,
              Nat.not_lt.mpr hnd] at h
            rwa [← h.2]
          | false =>
            rw [pv_map_step H cfg fuel ty false es ca ind st hnd rfl] at h
            rcases hE : printMapEntries H cfg fuel es 0 ind st
              with _ | ⟨ts, stE⟩
            · rw [hE] at h; exact absurd h (by simp)
            · rw [hE] at h
              simp only [Option.some.injEq, Prod.mk.injEq] at h
              rw [← h.2]
              exact ihE _ _ _ _ _ _ _ hInv hE
        | vslice ty sl nbs eb xs =>
          by_cases hnil : isNil (Val.vslice ty sl nbs eb xs)
          · simp [printValue, asStringer, hnil, typeNameOf,
              Nat.not_lt.mpr hnd] at h
            rwa [← h.2]
          · cases eb with
            | true =>
              simp [printValue, asStringer, hnil, Nat.not_lt.mpr hnd] at h
              rwa [← h.2]
            | false =>
              have hstep : printValue H cfg (fuel+1)
                  (Val.vslice ty sl nbs false xs) ca ind st =
                  match printSliceElems H cfg fuel xs 0 ind (sl || ca) st with
                  | none => none
                  | some (ts, st') =>
                      some (Tok.seqOpen :: Tok.newline :: ts ++
                              [Tok.closeBracket ind], st') := by
                cases sl <;> cases nbs
                · simp [printValue, asStringer, isNil, Nat.not_lt.mpr hnd]
                · simp [printValue, asStringer, isNil, Nat.not_lt.mpr hnd]
                · simp [printValue, asStringer, isNil, Nat.not_lt.mpr hnd]
                · exact absurd (by simp [isNil]) hnil
              rw [hstep] at h
              rcases hX : printSliceElems H cfg fuel xs 0 ind (sl || ca) st
                with _ | ⟨ts, stX⟩
              · rw [hX] at h; exact absurd h (by simp)
              · rw [hX] at h
                simp only [Option.some.injEq, Prod.mk.injEq] at h
                rw [← h.2]
                exact ihX _ _ _ _ _ _ _ _ hInv hX
    · -- printStructFields
      intro fs ca ind st out st' k hInv h
      cases fs with
      | nil =>
        rw [psf_nil] at h
        simp only [Option.some.injEq, Prod.mk.injEq] at h
        rwa [← h.2]
      | cons f fs =>
        obtain ⟨name, ex, fv⟩ := f
        rcases hA : asStringer (if ex then fv else forceExported fv) st
          with ⟨res, stA⟩
        have hInvA : RefInv k stA := by
          have hst := asStringer_state (if ex then fv else forceExported fv) st
          rw [hA] at hst
          rcases hst with h1 | h1
          · have h2 : stA = st := h1
            rw [h2]; exact hInv
          · have h2 : stA = bumpStringer st := h1
            rw [h2]; exact RefInv_bump k st hInv
        cases res with
        | nilPtr ty =>
          simp only [printStructFields, hA] at h
          rcases hR : printStructFields H cfg fuel fs ca ind stA
            with _ | ⟨rest, st2⟩
          · simp [hR] at h
          · simp only [hR, Option.some.injEq, Prod.mk.injEq] at h
            rw [← h.2]
            exact ihF _ _ _ _ _ _ _ hInvA hR
        | text s2 ty =>
          simp only [printStructFields, hA] at h
          rcases hR : printStructFields H cfg fuel fs ca ind stA
            with _ | ⟨rest, st2⟩
          · simp [hR] at h
          · simp only [hR, Option.some.injEq, Prod.mk.injEq] at h
            rw [← h.2]
            exact ihF _ _ _ _ _ _ _ hInvA hR
        | noStr =>
          simp only [printStructFields, hA] at h
          rcases hV : printValue H cfg fuel (if ex then fv else forceExported
              fv) ca (ind+1) st with _ | ⟨ts, stV⟩
          · simp [hV] at h
          · simp only [hV] at h
            rcases hR : printStructFields H cfg fuel fs ca ind stV
              with _ | ⟨rest, st2⟩
            · simp [hR] at h
            · simp only [hR, Option.some.injEq, Prod.mk.injEq] at h
              rw [← h.2]
              exact ihF _ _ _ _ _ _ _ (ihV _ _ _ _ _ _ _ hInv hV) hR
    · -- printMapEntries
      intro es i ind st out st' k hInv h
      cases es with
      | nil =>
        simp [printMapEntries] at h
        rwa [← h.2]
      | cons e es =>
        obtain ⟨ky, v⟩ := e
        by_cases hib : cfg.maxItems ≤ i
        · simp [printMapEntries, if_pos hib] at h
          rwa [← h.2]
        · simp only [printMapEntries, if_neg hib] at h
          rcases hV : printValue H cfg fuel v false (ind+1) st
            with _ | ⟨ts, stV⟩
          · simp [hV] at h
          · simp only [hV] at h
            rcases hR : printMapEntries H cfg fuel es (i+1) ind stV
              with _ | ⟨rest, st2⟩
            · simp [hR] at h
            · simp only [hR, Option.some.injEq, Prod.mk.injEq] at h
              rw [← h.2]
              exact ihE _ _ _ _ _ _ _ (ihV _ _ _ _ _ _ _ hInv hV) hR
    · -- printSliceElems
      intro xs i ind eca st out st' k hInv h
      cases xs with
      | nil =>
        simp [printSliceElems] at h
        rwa [← h.2]
      | cons x xs =>
        by_cases hib : cfg.maxItems ≤ i
        · simp [printSliceElems, if_pos hib] at h
          rwa [← h.2]
        · simp only [printSliceElems, if_neg hib] at h
          rcases hV : printValue H cfg fuel x eca (ind+1) st
            with _ | ⟨ts, stV⟩
          · simp [hV] at h
          · simp only [hV] at h
            rcases hR : printSliceElems H cfg fuel xs (i+1) ind eca stV
              with _ | ⟨rest, st2⟩
            · simp [hR] at h
            · simp only [hR, Option.some.injEq, Prod.mk.injEq] at h
              rw [← h.2]
              exact ihX _ _ _ _ _ _ _ _ (ihV _ _ _ _ _ _ _ hInv hV) hR

/-- The invariant is preserved across the per-argument loop of
`writeDump` (the reference table persists across the arguments of one
call). -/
theorem writeVals_refInv (H : Heap) (cfg : Cfg) :
    ∀ (fuel : Nat) (vs : List Val) (st : St) (out : List Tok) (st' : St)
      (k : Nat), RefInv k st →
      writeVals H cfg fuel vs st = some (out, st') → RefInv k st' := by
  intro fuel
  induction fuel with
  | zero => intro vs st out st' k _ h; simp [writeVals] at h
  | succ fuel ih =>
    intro vs st out st' k hInv h
    cases vs with
    | nil =>
      simp [writeVals] at h
      rwa [← h.2]
    | cons v vs =>
      simp only [writeVals] at h
      rcases hV : printValue H cfg fuel (makeAddressable v).1
          (makeAddressable v).2 0 st with _ | ⟨ts, st1⟩
      · simp [hV] at h
      · simp only [hV] at h
        rcases hR : writeVals H cfg fuel vs st1 with _ | ⟨rest, st2⟩
        · simp [hR] at h
        · simp only [hR, Option.some.injEq, Prod.mk.injEq] at h
          rw [← h.2]
          exact ih vs st1 rest st2 k
            ((refInvAll H cfg fuel).1 _ _ _ _ _ _ _ hInv hV) hR

/-- C1 (amended): at the start of every top-level dump call the
pointer-identity table is reset to empty (the incoming table is
irrelevant), but the next-id counter is NOT reset and keeps its
process-global value; within the call, distinct addressable pointer
targets are assigned consecutive ids starting at the counter's current
value, in first-visit order (the insertion order of the resulting
table), each distinct target at most once.  Ids start at 1 only while
the counter has never been advanced, e.g. in the process's first
call. -/
theorem C1_refid_assignment (H : Heap) (cfg : Cfg) (fuel : Nat)
    (vs : List Val) (st : St) (out : List Tok) (st' : St)
    (h : writeDump H cfg fuel vs st = some (out, st')) :
    writeDump H cfg fuel vs { st with refMap := [] } = some (out, st')
    ∧ st'.refMap.map Prod.snd = List.range' st.nextRefID st'.refMap.length
    ∧ (st'.refMap.map Prod.fst).Nodup
    ∧ st'.nextRefID = st.nextRefID + st'.refMap.length := by
  have hInv0 : RefInv st.nextRefID { st with refMap := [] } := by
    simp [RefInv]
  have hend : RefInv st.nextRefID st' :=
    writeVals_refInv H cfg fuel vs _ out st' _ hInv0
      (by simpa [writeDump] using h)
  obtain ⟨e1, e2, e3⟩ := hend
  exact ⟨by simpa [writeDump] using h, e1, e2, e3⟩

/-- C1 counterexample: a struct with two pointer fields to the same
target, dumped twice in one process.  The first call assigns id 1 and
renders `↩ &1`; at the start of the second call the counter still
holds 2 — `writeDump` resets only `referenceMap`, not `nextRefID` — so
the same target now gets id 2 and the second call renders `↩ &2`,
refuting "the next-id counter equals 1 ... for every call in a
process". -/
theorem C1_counterexample :
    DumpStr [(100, Val.vint 7)] NewDumper 10
        [Val.vstruct "godump.T"
          [("A", true, Val.vptr "*int" (some 100)),
           ("B", true, Val.vptr "*int" (some 100))]] st0
      = some ([Tok.structHeader "godump.T", Tok.newline,
          Tok.fieldLabel "+" "A" 1, Tok.intLit 7, Tok.newline,
          Tok.fieldLabel "+" "B" 1, Tok.backref 1, Tok.newline,
          Tok.closeBrace 0, Tok.newline],
          ⟨2, [(100, 1)], Backend.ansi, true, 0⟩)
    ∧ DumpStr [(100, Val.vint 7)] NewDumper 10
        [Val.vstruct "godump.T"
          [("A", true, Val.vptr "*int" (some 100)),
           ("B", true, Val.vptr "*int" (some 100))]]
        ⟨2, [(100, 1)], Backend.ansi, true, 0⟩
      = some ([Tok.structHeader "godump.T", Tok.newline,
          Tok.fieldLabel "+" "A" 1, Tok.intLit 7, Tok.newline,
          Tok.fieldLabel "+" "B" 1, Tok.backref 2, Tok.newline,
          Tok.closeBrace 0, Tok.newline],
          ⟨3, [(100, 2)], Backend.ansi, true, 0⟩)
    ∧ (2 : Nat) ≠ 1 := by
  refine ⟨?_, ?_, by decide⟩ <;>
    simp [DumpStr, writeDump, writeVals, printValue, printStructFields,
      makeAddressable, asStringer, isNilPtrRecv, isNil, typeNameOf, lookupRef,
      derefAddr, forceExported, NewDumper, st0]

/-- C1 witness: the amended theorem at the concrete two-pointer-field
struct: the call from the initial state registers the single target
with id 1 = the incoming counter value, and the counter advances by
the number of registrations. -/
theorem C1_refid_assignment_witness :
    writeDump [(100, Val.vint 7)] NewDumper 10
        [Val.vstruct "godump.T"
          [("A", true, Val.vptr "*int" (some 100)),
           ("B", true, Val.vptr "*int" (some 100))]] { st0 with refMap := [] }
      = some ([Tok.structHeader "godump.T", Tok.newline,
          Tok.fieldLabel "+" "A" 1, Tok.intLit 7, Tok.newline,
          Tok.fieldLabel "+" "B" 1, Tok.backref 1, Tok.newline,
          Tok.closeBrace 0, Tok.newline],
          (⟨2, [(100, 1)], Backend.ansi, true, 0⟩ : St))
    ∧ ((⟨2, [(100, 1)], Backend.ansi, true, 0⟩ : St).refMap.map Prod.snd
        = List.range' st0.nextRefID
            (⟨2, [(100, 1)], Backend.ansi, true, 0⟩ : St).refMap.length)
    ∧ ((⟨2, [(100, 1)], Backend.ansi, true, 0⟩ : St).refMap.map
        Prod.fst).Nodup
    ∧ (⟨2, [(100, 1)], Backend.ansi, true, 0⟩ : St).nextRefID
        = st0.nextRefID +
            (⟨2, [(100, 1)], Backend.ansi, true, 0⟩ : St).refMap.length :=
  C1_refid_assignment [(100, Val.vint 7)] NewDumper 10
    [Val.vstruct "godump.T"
      [("A", true, Val.vptr "*int" (some 100)),
       ("B", true, Val.vptr "*int" (some 100))]] st0
    [Tok.structHeader "godump.T", Tok.newline,
     Tok.fieldLabel "+" "A" 1, Tok.intLit 7, Tok.newline,
     Tok.fieldLabel "+" "B" 1, Tok.backref 1, Tok.newline,
     Tok.closeBrace 0, Tok.newline]
    ⟨2, [(100, 1)], Backend.ansi, true, 0⟩
    (by simp [writeDump, writeVals, printValue, printStructFields,
      makeAddressable, asStringer, isNilPtrRecv, isNil, typeNameOf, lookupRef,
      derefAddr, forceExported, NewDumper, st0])

end Godump
